import Mathlib

/-!
Verification of the transcript windowing engine
(`src/lib/parseTranscript.ts`).

Strings are modelled as `List Char`.  The JavaScript-specific pieces are
embedded as follows:
* the whitespace class of `\s`, `String.prototype.trim` — `isJsSpace`, `jsTrim`;
* `String.prototype.split(":")` / `split("\n")` — `splitOnChar` (a split on a
  separator always yields one more part than there are separators, and an
  empty string yields `[[]]`, exactly as in JavaScript);
* `Number(...)` on a colon-separated part — `jsNumber`, with `none` playing
  the role of `NaN` (a whitespace-only part is `0`, a digit string is its
  value, anything else is `NaN`);
* the anchored regex `/^\d{2}:\d{2}:\d{2}\s*$/` — `isTimestampLine`;
* the per-line loop with its mutable `currentWindowIndex` /
  `currentTimestamp` / `windowContents` — a fold of `step` over the lines,
  with `windowContents` as an association list in first-insertion order
  (`pushLine` mirrors `windowContents[i].push(line)`);
* `Object.entries` over numeric keys (which JavaScript enumerates in
  ascending numeric order) — `List.insertionSort keyLE`;
* the final `windows.sort((a, b) => a.index - b.index)` —
  `List.insertionSort windowLE`.
-/

/-- Convenience: the character list of a string literal. -/
def chars (s : String) : List Char := s.toList

/-- The JavaScript `\s` class (and the set trimmed by `String.prototype.trim`),
restricted to the code points that matter here. -/
def isJsSpace (c : Char) : Bool :=
  c == ' ' || c == '\t' || c == '\n' || c == '\r' ||
  c.toNat == 0x0b || c.toNat == 0x0c ||
  c.toNat == 0xa0 || c.toNat == 0xfeff ||
  c.toNat == 0x1680 || (0x2000 ≤ c.toNat && c.toNat ≤ 0x200a) ||
  c.toNat == 0x2028 || c.toNat == 0x2029 ||
  c.toNat == 0x202f || c.toNat == 0x205f || c.toNat == 0x3000

/-- `String.prototype.trim`: drop leading and trailing whitespace. -/
def jsTrim (l : List Char) : List Char :=
  ((l.dropWhile isJsSpace).reverse.dropWhile isJsSpace).reverse

/-- `raw.replace(/\r\n/g, "\n")`. -/
def replCRLF : List Char → List Char
  | '\r' :: '\n' :: rest => '\n' :: replCRLF rest
  | c :: rest => c :: replCRLF rest
  | [] => []

/-- `.replace(/\r/g, "\n")`. -/
def replCR (l : List Char) : List Char :=
  l.map (fun c => if c = '\r' then '\n' else c)

/-- `String.prototype.split(sep)` for a one-character separator. -/
def splitOnChar (sep : Char) : List Char → List (List Char)
  | [] => [[]]
  | c :: rest =>
    if c = sep then [] :: splitOnChar sep rest
    else
      match splitOnChar sep rest with
      | [] => [[c]]
      | p :: ps => (c :: p) :: ps

/-- Numeric value of a decimal digit character. -/
def digitVal (c : Char) : Nat := c.toNat - '0'.toNat

/-- Value of a string of decimal digits. -/
def parseDigits (l : List Char) : Nat :=
  l.foldl (fun acc c => 10 * acc + digitVal c) 0

/-- JavaScript `Number(s)` for the strings that occur here: a whitespace-only
(or empty) string is `0`, a digit string is its decimal value, everything
else is `NaN` (modelled as `none`). -/
def jsNumber (l : List Char) : Option Nat :=
  if l.all isJsSpace then some 0
  else if l.all Char.isDigit then some (parseDigits l)
  else none

/-- `hhmmssToSeconds` (src/lib/parseTranscript.ts, lines 8–11):
`s.split(":")`, convert the first three parts with `Number`, and return
`parts[0]*3600 + parts[1]*60 + parts[2]`; `none` models a `NaN` result. -/
def hhmmssToSeconds (s : List Char) : Option Nat :=
  let parts := (splitOnChar ':' s).map jsNumber
  match parts.get? 0, parts.get? 1, parts.get? 2 with
  | some (some h), some (some m), some (some sec) =>
      some (h * 3600 + m * 60 + sec)
  | _, _, _ => none

/-- Decimal digit list of a positive number (empty for `0`), most significant
digit first; the recursion mirrors repeated division by 10, with `fuel`
bounding the number of divisions (any `fuel ≥ n` gives the same result). -/
def natDigitsAux (fuel : Nat) (n : Nat) : List Char :=
  match fuel with
  | 0 => []
  | fuel' + 1 =>
    if n = 0 then []
    else natDigitsAux fuel' (n / 10) ++ [Char.ofNat ('0'.toNat + n % 10)]

/-- Decimal digit list of a positive number (empty for `0`). -/
def natDigits (n : Nat) : List Char := natDigitsAux n n

/-- JavaScript `n.toString()` for a natural number. -/
def natToDec (n : Nat) : List Char :=
  if n = 0 then ['0'] else natDigits n

/-- `String.prototype.padStart(2, "0")`. -/
def padStart2 (l : List Char) : List Char :=
  if l.length < 2 then List.replicate (2 - l.length) '0' ++ l else l

/-- `secondsToHHMMSS` (src/lib/parseTranscript.ts, lines 13–18). -/
def secondsToHHMMSS (sec : Nat) : List Char :=
  let hours := sec / 3600
  let minutes := (sec % 3600) / 60
  let seconds := sec % 60
  padStart2 (natToDec hours) ++ ':' ::
    (padStart2 (natToDec minutes) ++ ':' :: padStart2 (natToDec seconds))

/-- The output record type `Window`. -/
structure Window where
  index : Nat
  «from» : List Char
  «to» : List Char
  text : List Char
deriving DecidableEq, Repr

/-- The anchored timestamp regex `/^\d{2}:\d{2}:\d{2}\s*$/`. -/
def isTimestampLine (l : List Char) : Bool :=
  match l with
  | d1 :: d2 :: c1 :: d3 :: d4 :: c2 :: d5 :: d6 :: rest =>
      d1.isDigit && d2.isDigit && c1 == ':' && d3.isDigit && d4.isDigit &&
      c2 == ':' && d5.isDigit && d6.isDigit && rest.all isJsSpace
  | _ => false

/-- The mutable state of the line-walking loop. -/
structure ParseState where
  currentWindowIndex : Nat
  currentTimestamp : Nat
  contents : List (Nat × List (List Char))
deriving Repr

/-- `windowContents[k].push(line)` (creating the bucket if absent);
the association list keeps JavaScript's first-insertion key order. -/
def pushLine : List (Nat × List (List Char)) → Nat → List Char →
    List (Nat × List (List Char))
  | [], k, l => [(k, [l])]
  | (k0, ls) :: rest, k, l =>
    if k0 = k then (k0, ls ++ [l]) :: rest
    else (k0, ls) :: pushLine rest k l

/-- One iteration of the loop over `relevantLines`
(src/lib/parseTranscript.ts, lines 51–63). -/
def step (dur : Nat) (st : ParseState) (line : List Char) : ParseState :=
  if isTimestampLine line then
    let ts := (hhmmssToSeconds (jsTrim line)).getD 0
    { st with currentTimestamp := ts, currentWindowIndex := ts / dur }
  else
    { st with contents := pushLine st.contents st.currentWindowIndex line }

/-- The blank-collapsing loop (src/lib/parseTranscript.ts, lines 70–85); the
second argument is the `lastWasEmpty` flag. -/
def collapseBlanks : List (List Char) → Bool → List (List Char)
  | [], _ => []
  | l :: rest, lastWasEmpty =>
    if jsTrim l = [] then
      if lastWasEmpty then collapseBlanks rest true
      else [] :: collapseBlanks rest true
    else l :: collapseBlanks rest false

/-- `processedLines.join("\n")`. -/
def joinLines : List (List Char) → List Char
  | [] => []
  | [l] => l
  | l :: ls => l ++ '\n' :: joinLines ls

/-- Steps 5–7 applied to one bucket: collapse blanks, join, trim. -/
def cleanBucket (ls : List (List Char)) : List Char :=
  jsTrim (joinLines (collapseBlanks ls false))

/-- The window record pushed for a retained bucket
(src/lib/parseTranscript.ts, lines 90–99). -/
def mkWindow (dur k : Nat) (text : List Char) : Window :=
  { index := k
    «from» := secondsToHHMMSS (k * dur)
    «to» := secondsToHHMMSS (k * dur + dur - 1)
    text := text }

/-- The loop over `Object.entries(windowContents)`: clean each bucket and keep
it only when the trimmed text is non-empty. -/
def buildWindows (dur : Nat) (entries : List (Nat × List (List Char))) :
    List Window :=
  entries.filterMap (fun e =>
    let text := cleanBucket e.2
    if text = [] then none else some (mkWindow dur e.1 text))

/-- Ordering of buckets by numeric key, as `Object.entries` enumerates them. -/
def keyLE (a b : Nat × List (List Char)) : Prop := a.1 ≤ b.1

instance : DecidableRel keyLE := fun a b => Nat.decLe a.1 b.1

instance : IsTotal (Nat × List (List Char)) keyLE := ⟨fun a b => Nat.le_total a.1 b.1⟩

instance : IsTrans (Nat × List (List Char)) keyLE := ⟨fun _ _ _ => Nat.le_trans⟩

/-- The comparator of the final `windows.sort((a, b) => a.index - b.index)`. -/
def windowLE (a b : Window) : Prop := a.index ≤ b.index

instance : DecidableRel windowLE := fun a b => Nat.decLe a.index b.index

instance : IsTotal Window windowLE := ⟨fun a b => Nat.le_total a.index b.index⟩

instance : IsTrans Window windowLE := ⟨fun _ _ _ => Nat.le_trans⟩

/-- The fold of `step` over `relevantLines`, started from the loop's initial
state (`currentWindowIndex = 0`, `currentTimestamp = 0`, empty contents). -/
def runLines (dur : Nat) (rel : List (List Char)) : ParseState :=
  rel.foldl (step dur) ⟨0, 0, []⟩

/-- Steps 3–11 of the routine, applied to the lines from the first timestamp
marker onwards. -/
def windowsFromRelevant (dur : Nat) (rel : List (List Char)) : List Window :=
  let st := runLines dur rel
  let entries := List.insertionSort keyLE st.contents
  List.insertionSort windowLE (buildWindows dur entries)

/-- The search loop for `firstTimestampIndex`
(src/lib/parseTranscript.ts, lines 27–33): index of the first line
satisfying `p`, or `none`. -/
def findFirstIdx (p : List Char → Bool) : List (List Char) → Option Nat
  | [] => none
  | a :: l => if p a then some 0 else (findFirstIdx p l).map (· + 1)

/-- Steps 1–2: normalize line endings, trim the whole input, split into
lines. -/
def normalizeLines (raw : List Char) : List (List Char) :=
  splitOnChar '\n' (jsTrim (replCR (replCRLF raw)))

/-- `splitTranscriptIntoWindows` (src/lib/parseTranscript.ts, lines 20–104). -/
def splitTranscriptIntoWindows (raw : List Char) (windowMinutes : Nat := 20) :
    List Window :=
  let lines := normalizeLines raw
  match findFirstIdx isTimestampLine lines with
  | none => []
  | some i => windowsFromRelevant (windowMinutes * 60) (lines.drop i)

/-- A line whose trimmed content is empty (`line.trim() === ""`). -/
def isBlankLine (l : List Char) : Bool := decide (jsTrim l = [])

/-- The spec's own wording of the timestamp-marker pattern, for comparison
with `isTimestampLine`: "exactly two digits, colon, two digits, colon, two
digits, optionally followed by trailing whitespace, and nothing else". -/
def specTimestampMarker (l : List Char) : Prop :=
  ∃ d1 d2 d3 d4 d5 d6 ws,
    l = d1 :: d2 :: ':' :: d3 :: d4 :: ':' :: d5 :: d6 :: ws ∧
    d1.isDigit = true ∧ d2.isDigit = true ∧ d3.isDigit = true ∧
    d4.isDigit = true ∧ d5.isDigit = true ∧ d6.isDigit = true ∧
    ws.all isJsSpace = true

/-- The clock shape claimed in C8: exactly two digit characters in each of
the three colon-separated fields. -/
def isTwoDigitClock (l : List Char) : Bool :=
  match l with
  | [a, b, c1, d, e, c2, f, g] =>
      a.isDigit && b.isDigit && c1 == ':' && d.isDigit && e.isDigit &&
      c2 == ':' && f.isDigit && g.isDigit
  | _ => false

/-- The actual clock-string shape produced by `secondsToHHMMSS`: three
colon-separated digit fields, the hours field zero-padded to at least two
digits, the minutes and seconds fields exactly two digits. -/
def clockFields (l : List Char) : Prop :=
  ∃ hs ms ss, l = hs ++ ':' :: (ms ++ ':' :: ss) ∧
    hs.all Char.isDigit = true ∧ ms.all Char.isDigit = true ∧
    ss.all Char.isDigit = true ∧
    2 ≤ hs.length ∧ ms.length = 2 ∧ ss.length = 2

/-! ### Character-level lemmas -/

theorem isDigit_toNat {c : Char} (h : c.isDigit = true) :
    48 ≤ c.toNat ∧ c.toNat ≤ 57 := by
  simp [Char.isDigit] at h
  exact ⟨h.1, h.2⟩

theorem toNat_of_isJsSpace {c : Char} (h : isJsSpace c = true) :
    c.toNat = 32 ∨ c.toNat = 9 ∨ c.toNat = 10 ∨ c.toNat = 13 ∨
    c.toNat = 0x0b ∨ c.toNat = 0x0c ∨ c.toNat = 0xa0 ∨ c.toNat = 0xfeff ∨
    c.toNat = 0x1680 ∨ (0x2000 ≤ c.toNat ∧ c.toNat ≤ 0x200a) ∨
    c.toNat = 0x2028 ∨ c.toNat = 0x2029 ∨ c.toNat = 0x202f ∨
    c.toNat = 0x205f ∨ c.toNat = 0x3000 := by
  unfold isJsSpace at h
  simp only [Bool.or_eq_true, beq_iff_eq, Bool.and_eq_true,
    decide_eq_true_eq] at h
  rcases h with ((((((((((((((h | h) | h) | h) | h) | h) | h) | h) | h) | h) |
      h) | h) | h) | h) | h)
  all_goals first
    | (subst h; simp)
    | simp [h]

theorem isJsSpace_eq_false_of_isDigit {c : Char} (h : c.isDigit = true) :
    isJsSpace c = false := by
  obtain ⟨h1, h2⟩ := isDigit_toNat h
  cases hs : isJsSpace c with
  | false => rfl
  | true => rcases toNat_of_isJsSpace hs with h' | h' | h' | h' | h' | h' |
      h' | h' | h' | h' | h' | h' | h' | h' | h' <;> omega

theorem isDigit_ne_colon {c : Char} (h : c.isDigit = true) : c ≠ ':' := by
  intro e
  subst e
  exact absurd h (by decide)

theorem zeroCharToNat : '0'.toNat = 48 := rfl

theorem ofNat_digit_isDigit {d : Nat} (hd : d < 10) :
    (Char.ofNat (48 + d)).isDigit = true := by
  interval_cases d <;> decide

theorem digitVal_ofNat {d : Nat} (hd : d < 10) :
    digitVal (Char.ofNat (48 + d)) = d := by
  interval_cases d <;> decide

/-! ### Digit strings and decimal printing -/

theorem parseDigits_append_singleton (l : List Char) (c : Char) :
    parseDigits (l ++ [c]) = 10 * parseDigits l + digitVal c := by
  unfold parseDigits
  rw [List.foldl_append]
  rfl

theorem parseDigits_leading_zeros (k : Nat) (l : List Char) :
    parseDigits (List.replicate k '0' ++ l) = parseDigits l := by
  induction k with
  | zero => rfl
  | succ n ih =>
    unfold parseDigits at ih ⊢
    rw [List.replicate_succ, List.cons_append, List.foldl_cons]
    simpa [digitVal] using ih

theorem natDigitsAux_zero (fuel : Nat) : natDigitsAux fuel 0 = [] := by
  cases fuel <;> simp [natDigitsAux]

theorem natDigitsAux_all_isDigit (fuel : Nat) :
    ∀ n, (natDigitsAux fuel n).all Char.isDigit = true := by
  induction fuel with
  | zero => intro n; rfl
  | succ f ih =>
    intro n
    unfold natDigitsAux
    by_cases h : n = 0
    · simp [h]
    · rw [if_neg h]
      simp only [List.all_append, Bool.and_eq_true, ih]
      exact ⟨trivial, by
        simp [List.all_cons, ofNat_digit_isDigit (Nat.mod_lt _ (by omega))]⟩

theorem parseDigits_natDigitsAux (fuel : Nat) :
    ∀ n, n ≤ fuel → parseDigits (natDigitsAux fuel n) = n := by
  induction fuel with
  | zero =>
    intro n hn
    interval_cases n
    rfl
  | succ f ih =>
    intro n hn
    unfold natDigitsAux
    by_cases h : n = 0
    · subst h; rfl
    · rw [if_neg h, parseDigits_append_singleton, ih (n / 10) (by omega)]
      simp only [zeroCharToNat]
      rw [digitVal_ofNat (Nat.mod_lt _ (by omega))]
      omega

theorem parseDigits_natToDec (n : Nat) : parseDigits (natToDec n) = n := by
  unfold natToDec
  by_cases h : n = 0
  · subst h; rfl
  · rw [if_neg h]
    exact parseDigits_natDigitsAux n n le_rfl

theorem natToDec_all_isDigit (n : Nat) : (natToDec n).all Char.isDigit = true := by
  unfold natToDec
  by_cases h : n = 0
  · subst h; rfl
  · rw [if_neg h]
    exact natDigitsAux_all_isDigit n n

theorem natToDec_ne_nil (n : Nat) : natToDec n ≠ [] := by
  unfold natToDec
  by_cases h : n = 0
  · simp [h]
  · rw [if_neg h]
    obtain ⟨f, rfl⟩ : ∃ f, n = f + 1 := ⟨n - 1, by omega⟩
    unfold natDigits natDigitsAux
    rw [if_neg h]
    simp

theorem natDigitsAux_length_le_one (fuel : Nat) :
    ∀ n, n < 10 → (natDigitsAux fuel n).length ≤ 1 := by
  induction fuel with
  | zero => intro n _; simp [natDigitsAux]
  | succ f _ =>
    intro n hn
    unfold natDigitsAux
    by_cases h : n = 0
    · simp [h]
    · rw [if_neg h]
      have : n / 10 = 0 := by omega
      rw [this, natDigitsAux_zero]
      simp

theorem natDigitsAux_length_le_two (fuel : Nat) :
    ∀ n, n < 100 → (natDigitsAux fuel n).length ≤ 2 := by
  cases fuel with
  | zero => intro n _; simp [natDigitsAux]
  | succ f =>
    intro n hn
    unfold natDigitsAux
    by_cases h : n = 0
    · simp [h]
    · rw [if_neg h]
      have h10 : n / 10 < 10 := by omega
      have := natDigitsAux_length_le_one f (n / 10) h10
      simp only [List.length_append, List.length_cons, List.length_nil]
      omega

theorem natToDec_length_le_two {n : Nat} (hn : n < 100) :
    (natToDec n).length ≤ 2 := by
  unfold natToDec
  by_cases h : n = 0
  · simp [h]
  · rw [if_neg h]
    exact natDigitsAux_length_le_two n n hn

/-! ### `padStart2` -/

theorem replicate_zero_all_isDigit (k : Nat) :
    (List.replicate k '0').all Char.isDigit = true := by
  induction k with
  | zero => rfl
  | succ n ih => simp [List.replicate_succ, List.all_cons, ih]

theorem padStart2_parseDigits (l : List Char) :
    parseDigits (padStart2 l) = parseDigits l := by
  unfold padStart2
  split
  · exact parseDigits_leading_zeros _ l
  · rfl

theorem padStart2_all_isDigit {l : List Char} (h : l.all Char.isDigit = true) :
    (padStart2 l).all Char.isDigit = true := by
  unfold padStart2
  split
  · simp [List.all_append, replicate_zero_all_isDigit, h]
  · exact h

theorem padStart2_ne_nil {l : List Char} (h : l ≠ []) : padStart2 l ≠ [] := by
  unfold padStart2
  split
  · simp_all [List.append_eq_nil]
  · exact h

theorem padStart2_length (l : List Char) :
    (padStart2 l).length = max 2 l.length := by
  unfold padStart2
  split
  · simp only [List.length_append, List.length_replicate]
    omega
  · omega

/-! ### `splitOnChar` -/

theorem splitOnChar_of_not_mem {sep : Char} {l : List Char} (h : sep ∉ l) :
    splitOnChar sep l = [l] := by
  induction l with
  | nil => rfl
  | cons c rest ih =>
    have hc : ¬ c = sep := fun e => h (e ▸ List.mem_cons_self c rest)
    have hr := ih (fun m => h (List.mem_cons_of_mem _ m))
    simp [splitOnChar, hc, hr]

theorem splitOnChar_append {sep : Char} {a rest : List Char} (h : sep ∉ a) :
    splitOnChar sep (a ++ sep :: rest) = a :: splitOnChar sep rest := by
  induction a with
  | nil => simp [splitOnChar]
  | cons c as ih =>
    have hc : ¬ c = sep := fun e => h (e ▸ List.mem_cons_self c as)
    have hr := ih (fun m => h (List.mem_cons_of_mem _ m))
    simp only [List.cons_append, splitOnChar, hc, if_false, List.append_eq, hr]

theorem not_colon_mem_of_all_isDigit {l : List Char}
    (h : l.all Char.isDigit = true) : ':' ∉ l := by
  intro hm
  rw [List.all_eq_true] at h
  exact absurd (h _ hm) (by decide)

/-! ### `jsNumber` -/

theorem jsNumber_digits {l : List Char} (hne : l ≠ [])
    (h : l.all Char.isDigit = true) : jsNumber l = some (parseDigits l) := by
  unfold jsNumber
  have hs : l.all isJsSpace = false := by
    cases l with
    | nil => exact absurd rfl hne
    | cons c cs =>
      rw [List.all_cons] at h ⊢
      rw [Bool.and_eq_true] at h
      rw [isJsSpace_eq_false_of_isDigit h.1]
      rfl
  rw [hs]
  simp [h]

/-! ### `jsTrim` -/

theorem dropWhile_cons_false {p : Char → Bool} {x : Char} {xs : List Char}
    (h : p x = false) : List.dropWhile p (x :: xs) = x :: xs := by
  simp [List.dropWhile_cons, h]

theorem dropWhile_append_all {p : Char → Bool} {xs ys : List Char}
    (h : ∀ a ∈ xs, p a = true) :
    List.dropWhile p (xs ++ ys) = List.dropWhile p ys := by
  induction xs with
  | nil => rfl
  | cons c cs ih =>
    rw [List.cons_append, List.dropWhile_cons,
      if_pos (h c (List.mem_cons_self c cs))]
    exact ih (fun a ha => h a (List.mem_cons_of_mem _ ha))

theorem jsTrim_marker {d1 d2 d3 d4 d5 d6 : Char} {ws : List Char}
    (h1 : d1.isDigit = true) (h6 : d6.isDigit = true)
    (hws : ws.all isJsSpace = true) :
    jsTrim (d1 :: d2 :: ':' :: d3 :: d4 :: ':' :: d5 :: d6 :: ws) =
      [d1, d2, ':', d3, d4, ':', d5, d6] := by
  unfold jsTrim
  rw [dropWhile_cons_false (isJsSpace_eq_false_of_isDigit h1)]
  have hrev : (d1 :: d2 :: ':' :: d3 :: d4 :: ':' :: d5 :: d6 :: ws).reverse =
      ws.reverse ++ d6 :: [d5, ':', d4, d3, ':', d2, d1] := by
    simp
  rw [hrev, dropWhile_append_all (by
    intro a ha
    rw [List.all_eq_true] at hws
    exact hws a (List.mem_reverse.mp ha)),
    dropWhile_cons_false (isJsSpace_eq_false_of_isDigit h6)]
  simp

/-! ### Timestamp-marker lines -/

theorem isTimestampLine_iff (l : List Char) :
    isTimestampLine l = true ↔ specTimestampMarker l := by
  constructor
  · intro h
    unfold isTimestampLine at h
    split at h
    case h_1 d1 d2 c1 d3 d4 c2 d5 d6 rest =>
      simp only [Bool.and_eq_true, beq_iff_eq] at h
      obtain ⟨⟨⟨⟨⟨⟨⟨⟨hd1, hd2⟩, hc1⟩, hd3⟩, hd4⟩, hc2⟩, hd5⟩, hd6⟩, hws⟩ := h
      subst hc1
      subst hc2
      exact ⟨d1, d2, d3, d4, d5, d6, rest, rfl,
        hd1, hd2, hd3, hd4, hd5, hd6, hws⟩
    case h_2 => exact absurd h (by simp)
  · rintro ⟨d1, d2, d3, d4, d5, d6, ws, rfl, h1, h2, h3, h4, h5, h6, hws⟩
    simp [isTimestampLine, h1, h2, h3, h4, h5, h6, hws]

theorem parseDigits_pair (a b : Char) :
    parseDigits [a, b] = 10 * digitVal a + digitVal b := by
  simp [parseDigits, List.foldl]

theorem hhmmssToSeconds_core {d1 d2 d3 d4 d5 d6 : Char}
    (h1 : d1.isDigit = true) (h2 : d2.isDigit = true)
    (h3 : d3.isDigit = true) (h4 : d4.isDigit = true)
    (h5 : d5.isDigit = true) (h6 : d6.isDigit = true) :
    hhmmssToSeconds [d1, d2, ':', d3, d4, ':', d5, d6] =
      some ((10 * digitVal d1 + digitVal d2) * 3600 +
        (10 * digitVal d3 + digitVal d4) * 60 +
        (10 * digitVal d5 + digitVal d6)) := by
  have no2 : ':' ∉ [d5, d6] := not_colon_mem_of_all_isDigit (by simp [h5, h6])
  have e2 : splitOnChar ':' ([d3, d4] ++ ':' :: [d5, d6]) =
      [d3, d4] :: splitOnChar ':' [d5, d6] :=
    splitOnChar_append (not_colon_mem_of_all_isDigit (by simp [h3, h4]))
  have e1 : splitOnChar ':' ([d1, d2] ++ ':' :: ([d3, d4] ++ ':' :: [d5, d6])) =
      [d1, d2] :: splitOnChar ':' ([d3, d4] ++ ':' :: [d5, d6]) :=
    splitOnChar_append (not_colon_mem_of_all_isDigit (by simp [h1, h2]))
  have esplit : splitOnChar ':' [d1, d2, ':', d3, d4, ':', d5, d6] =
      [[d1, d2], [d3, d4], [d5, d6]] := by
    have := e1
    rw [e2, splitOnChar_of_not_mem no2] at this
    simpa using this
  unfold hhmmssToSeconds
  rw [esplit]
  rw [List.map_cons, List.map_cons, List.map_cons, List.map_nil]
  rw [jsNumber_digits (by simp) (by simp [h1, h2]),
    jsNumber_digits (by simp) (by simp [h3, h4]),
    jsNumber_digits (by simp) (by simp [h5, h6])]
  simp [parseDigits_pair]

theorem hhmmssToSeconds_marker {l : List Char} (h : isTimestampLine l = true) :
    ∃ d1 d2 d3 d4 d5 d6 ws,
      l = d1 :: d2 :: ':' :: d3 :: d4 :: ':' :: d5 :: d6 :: ws ∧
      d1.isDigit = true ∧ d2.isDigit = true ∧ d3.isDigit = true ∧
      d4.isDigit = true ∧ d5.isDigit = true ∧ d6.isDigit = true ∧
      ws.all isJsSpace = true ∧
      hhmmssToSeconds (jsTrim l) =
        some ((10 * digitVal d1 + digitVal d2) * 3600 +
          (10 * digitVal d3 + digitVal d4) * 60 +
          (10 * digitVal d5 + digitVal d6)) := by
  obtain ⟨d1, d2, d3, d4, d5, d6, ws, rfl, h1, h2, h3, h4, h5, h6, hws⟩ :=
    (isTimestampLine_iff l).mp h
  refine ⟨d1, d2, d3, d4, d5, d6, ws, rfl, h1, h2, h3, h4, h5, h6, hws, ?_⟩
  rw [jsTrim_marker h1 h6 hws]
  exact hhmmssToSeconds_core h1 h2 h3 h4 h5 h6

/-! ### Round trip of `secondsToHHMMSS` -/

theorem splitOnChar_secondsToHHMMSS (n : Nat) :
    splitOnChar ':' (secondsToHHMMSS n) =
      [padStart2 (natToDec (n / 3600)),
       padStart2 (natToDec (n % 3600 / 60)),
       padStart2 (natToDec (n % 60))] := by
  unfold secondsToHHMMSS
  have nc1 : ':' ∉ padStart2 (natToDec (n / 3600)) :=
    not_colon_mem_of_all_isDigit (padStart2_all_isDigit (natToDec_all_isDigit _))
  have nc2 : ':' ∉ padStart2 (natToDec (n % 3600 / 60)) :=
    not_colon_mem_of_all_isDigit (padStart2_all_isDigit (natToDec_all_isDigit _))
  have nc3 : ':' ∉ padStart2 (natToDec (n % 60)) :=
    not_colon_mem_of_all_isDigit (padStart2_all_isDigit (natToDec_all_isDigit _))
  rw [splitOnChar_append nc1, splitOnChar_append nc2, splitOnChar_of_not_mem nc3]

theorem jsNumber_padded (x : Nat) :
    jsNumber (padStart2 (natToDec x)) = some x := by
  rw [jsNumber_digits (padStart2_ne_nil (natToDec_ne_nil x))
        (padStart2_all_isDigit (natToDec_all_isDigit x)),
    padStart2_parseDigits, parseDigits_natToDec]

theorem hhmmssToSeconds_secondsToHHMMSS (n : Nat) :
    hhmmssToSeconds (secondsToHHMMSS n) = some n := by
  unfold hhmmssToSeconds
  rw [splitOnChar_secondsToHHMMSS]
  rw [List.map_cons, List.map_cons, List.map_cons, List.map_nil]
  rw [jsNumber_padded, jsNumber_padded, jsNumber_padded]
  simp only [List.get?]
  have : n / 3600 * 3600 + n % 3600 / 60 * 60 + n % 60 = n := by omega
  simpa using this

/-! ### Clock shape of `secondsToHHMMSS` -/

theorem secondsToHHMMSS_clockFields (n : Nat) :
    clockFields (secondsToHHMMSS n) := by
  refine ⟨padStart2 (natToDec (n / 3600)),
    padStart2 (natToDec (n % 3600 / 60)),
    padStart2 (natToDec (n % 60)), ?_,
    padStart2_all_isDigit (natToDec_all_isDigit _),
    padStart2_all_isDigit (natToDec_all_isDigit _),
    padStart2_all_isDigit (natToDec_all_isDigit _), ?_, ?_, ?_⟩
  · unfold secondsToHHMMSS
    rfl
  · rw [padStart2_length]
    omega
  · rw [padStart2_length]
    have := natToDec_length_le_two (n := n % 3600 / 60) (by omega)
    omega
  · rw [padStart2_length]
    have := natToDec_length_le_two (n := n % 60) (by omega)
    omega

/-! ### Blank-line collapsing -/

theorem collapseBlanks_filter (ls : List (List Char)) :
    ∀ b, (collapseBlanks ls b).filter (fun l => !isBlankLine l) =
      ls.filter (fun l => !isBlankLine l) := by
  induction ls with
  | nil => intro b; rfl
  | cons l rest ih =>
    intro b
    unfold collapseBlanks
    by_cases h : jsTrim l = []
    · rw [if_pos h]
      have hbl : isBlankLine l = true := by simp [isBlankLine, h]
      have hnil : isBlankLine ([] : List Char) = true := by decide
      cases b
      · simp [List.filter_cons, hbl, hnil, ih]
      · simp [List.filter_cons, hbl, ih]
    · rw [if_neg h]
      have hbl : isBlankLine l = false := by simp [isBlankLine, h]
      simp [List.filter_cons, hbl, ih]

theorem collapseBlanks_head_nonblank (ls : List (List Char)) :
    ∀ y ∈ (collapseBlanks ls true).head?, isBlankLine y = false := by
  induction ls with
  | nil => intro y hy; simp [collapseBlanks] at hy
  | cons l rest ih =>
    intro y hy
    unfold collapseBlanks at hy
    by_cases h : jsTrim l = []
    · rw [if_pos h, if_pos rfl] at hy
      exact ih y hy
    · rw [if_neg h] at hy
      simp only [List.head?_cons, Option.mem_some_iff] at hy
      subst hy
      simp [isBlankLine, h]

theorem collapseBlanks_chain (ls : List (List Char)) :
    ∀ b, List.Chain' (fun a c => isBlankLine a = false ∨ isBlankLine c = false)
      (collapseBlanks ls b) := by
  induction ls with
  | nil => intro b; simp [collapseBlanks]
  | cons l rest ih =>
    intro b
    unfold collapseBlanks
    by_cases h : jsTrim l = []
    · rw [if_pos h]
      cases b
      · simp only [Bool.false_eq_true, if_false]
        rw [List.chain'_cons']
        exact ⟨fun y hy => Or.inr (collapseBlanks_head_nonblank rest y hy),
          ih true⟩
      · simpa using ih true
    · rw [if_neg h]
      rw [List.chain'_cons']
      exact ⟨fun y _ => Or.inl (by simp [isBlankLine, h]), ih false⟩

theorem collapseBlanks_blank_eq_nil (ls : List (List Char)) :
    ∀ b, ∀ l ∈ collapseBlanks ls b, isBlankLine l = true → l = [] := by
  induction ls with
  | nil => intro b l hl; simp [collapseBlanks] at hl
  | cons x rest ih =>
    intro b l hl hbl
    unfold collapseBlanks at hl
    by_cases h : jsTrim x = []
    · rw [if_pos h] at hl
      cases b
      · simp only [Bool.false_eq_true, if_false, List.mem_cons] at hl
        rcases hl with rfl | hl
        · rfl
        · exact ih true l hl hbl
      · exact ih true l (by simpa using hl) hbl
    · rw [if_neg h] at hl
      rcases List.mem_cons.mp hl with rfl | hl
      · exact absurd hbl (by simp [isBlankLine, h])
      · exact ih false l hl hbl

/-! ### Bucket keys -/

theorem pushLine_keys (m : List (Nat × List (List Char))) (k : Nat)
    (l : List Char) :
    (pushLine m k l).map Prod.fst =
      if k ∈ m.map Prod.fst then m.map Prod.fst
      else m.map Prod.fst ++ [k] := by
  induction m with
  | nil => simp [pushLine]
  | cons e rest ih =>
    obtain ⟨k0, ls⟩ := e
    unfold pushLine
    by_cases h : k0 = k
    · subst h
      simp [List.map_cons]
    · rw [if_neg h]
      simp only [List.map_cons, ih]
      by_cases hm : k ∈ rest.map Prod.fst
      · rw [if_pos hm, if_pos (by simp [hm])]
      · rw [if_neg hm, if_neg (by
          simp only [List.mem_cons]
          push_neg
          exact ⟨fun e => h e.symm, hm⟩)]
        simp

theorem mem_pushLine_keys {m : List (Nat × List (List Char))} {k : Nat}
    {l : List Char} {k' : Nat}
    (h : k' ∈ (pushLine m k l).map Prod.fst) :
    k' ∈ m.map Prod.fst ∨ k' = k := by
  rw [pushLine_keys] at h
  split at h
  · exact Or.inl h
  · rcases List.mem_append.mp h with h' | h'
    · exact Or.inl h'
    · exact Or.inr (by simpa using h')

theorem pushLine_keys_nodup {m : List (Nat × List (List Char))} {k : Nat}
    {l : List Char} (h : (m.map Prod.fst).Nodup) :
    ((pushLine m k l).map Prod.fst).Nodup := by
  rw [pushLine_keys]
  split
  · exact h
  · rename_i hk
    rw [List.nodup_append]
    exact ⟨h, List.nodup_singleton k, by
      rw [List.disjoint_singleton]
      exact hk⟩

theorem foldl_step_nodup (dur : Nat) (ls : List (List Char)) :
    ∀ st : ParseState, (st.contents.map Prod.fst).Nodup →
      (((ls.foldl (step dur) st).contents.map Prod.fst)).Nodup := by
  induction ls with
  | nil => intro st h; exact h
  | cons l rest ih =>
    intro st h
    rw [List.foldl_cons]
    apply ih
    unfold step
    by_cases hm : isTimestampLine l = true
    · simpa [hm] using h
    · simp only [hm, Bool.false_eq_true, if_false]
      exact pushLine_keys_nodup h

theorem foldl_step_keys_inv (dur : Nat) (Q : Nat → Prop) :
    ∀ (ls : List (List Char)) (st : ParseState),
      (∀ l ∈ ls, isTimestampLine l = true →
        Q ((hhmmssToSeconds (jsTrim l)).getD 0 / dur)) →
      Q st.currentWindowIndex →
      (∀ k ∈ st.contents.map Prod.fst, Q k) →
      Q ((ls.foldl (step dur) st).currentWindowIndex) ∧
      ∀ k ∈ (ls.foldl (step dur) st).contents.map Prod.fst, Q k := by
  intro ls
  induction ls with
  | nil => intro st _ h2 h3; exact ⟨h2, h3⟩
  | cons l rest ih =>
    intro st hQ h2 h3
    rw [List.foldl_cons]
    by_cases hm : isTimestampLine l = true
    · refine ih (step dur st l)
        (fun x hx hxt => hQ x (List.mem_cons_of_mem _ hx) hxt) ?_ ?_
      · have e : (step dur st l).currentWindowIndex =
            (hhmmssToSeconds (jsTrim l)).getD 0 / dur := by simp [step, hm]
        rw [e]
        exact hQ l (List.mem_cons_self _ _) hm
      · intro k hk
        have e : (step dur st l).contents = st.contents := by simp [step, hm]
        rw [e] at hk
        exact h3 k hk
    · refine ih (step dur st l)
        (fun x hx hxt => hQ x (List.mem_cons_of_mem _ hx) hxt) ?_ ?_
      · have e : (step dur st l).currentWindowIndex = st.currentWindowIndex := by
          simp [step, hm]
        rw [e]
        exact h2
      · intro k hk
        have e : (step dur st l).contents =
            pushLine st.contents st.currentWindowIndex l := by simp [step, hm]
        rw [e] at hk
        rcases mem_pushLine_keys hk with h' | rfl
        · exact h3 k h'
        · exact h2

/-! ### The first-timestamp search -/

theorem findFirstIdx_eq_none_iff {p : List Char → Bool} :
    ∀ {l : List (List Char)},
      findFirstIdx p l = none ↔ ∀ x ∈ l, p x = false := by
  intro l
  induction l with
  | nil => simp [findFirstIdx]
  | cons a rest ih =>
    unfold findFirstIdx
    by_cases h : p a = true
    · simp [h]
    · rw [if_neg h]
      rw [Option.map_eq_none', ih]
      constructor
      · intro hall x hx
        rcases List.mem_cons.mp hx with rfl | hx
        · simpa using h
        · exact hall x hx
      · intro hall x hx
        exact hall x (List.mem_cons_of_mem _ hx)

theorem findFirstIdx_drop {p : List Char → Bool} :
    ∀ {l : List (List Char)} {i : Nat}, findFirstIdx p l = some i →
      ∃ hd tl, l.drop i = hd :: tl ∧ p hd = true := by
  intro l
  induction l with
  | nil => intro i h; simp [findFirstIdx] at h
  | cons a rest ih =>
    intro i h
    unfold findFirstIdx at h
    by_cases ha : p a = true
    · rw [if_pos ha] at h
      obtain rfl : (0 : Nat) = i := by simpa using h
      exact ⟨a, rest, rfl, ha⟩
    · rw [if_neg ha] at h
      rw [Option.map_eq_some'] at h
      obtain ⟨j, hj, rfl⟩ := h
      obtain ⟨hd, tl, hdr, hph⟩ := ih hj
      exact ⟨hd, tl, by simpa using hdr, hph⟩

/-! ### Membership in the output -/

theorem mem_windowsFromRelevant {dur : Nat} {rel : List (List Char)}
    {w : Window} (hw : w ∈ windowsFromRelevant dur rel) :
    ∃ k ls, (k, ls) ∈ (runLines dur rel).contents ∧
      cleanBucket ls ≠ [] ∧ w = mkWindow dur k (cleanBucket ls) := by
  simp only [windowsFromRelevant] at hw
  have h1 : w ∈ buildWindows dur
      (List.insertionSort keyLE (runLines dur rel).contents) :=
    (List.perm_insertionSort windowLE _).mem_iff.mp hw
  rw [buildWindows, List.mem_filterMap] at h1
  obtain ⟨e, he, hfe⟩ := h1
  have he' : e ∈ (runLines dur rel).contents :=
    (List.perm_insertionSort keyLE _).mem_iff.mp he
  by_cases ht : cleanBucket e.2 = []
  · simp [ht] at hfe
  · refine ⟨e.1, e.2, he', ht, ?_⟩
    simp only [if_neg ht] at hfe
    exact (Option.some_inj.mp hfe).symm

/-! ### Sorting -/

theorem buildWindows_index_sublist (dur : Nat)
    (entries : List (Nat × List (List Char))) :
    ((buildWindows dur entries).map Window.index).Sublist
      (entries.map Prod.fst) := by
  induction entries with
  | nil => simp [buildWindows]
  | cons e rest ih =>
    rw [buildWindows, List.filterMap_cons]
    by_cases ht : cleanBucket e.2 = []
    · simp only [ht, if_pos ht]
      exact (ih).cons e.1
    · simp only [ht, if_neg ht, List.map_cons]
      exact (ih).cons₂ e.1

theorem windows_pairwise_lt {ws : List Window}
    (h : (ws.map Window.index).Nodup) :
    List.Pairwise (fun a b => a.index < b.index)
      (List.insertionSort windowLE ws) := by
  have hs : List.Sorted windowLE (List.insertionSort windowLE ws) :=
    List.sorted_insertionSort windowLE ws
  have hperm := List.perm_insertionSort windowLE ws
  have hn : ((List.insertionSort windowLE ws).map Window.index).Nodup :=
    ((hperm.map Window.index).nodup_iff).mpr h
  have hne : List.Pairwise (fun a b : Window => a.index ≠ b.index)
      (List.insertionSort windowLE ws) := List.pairwise_map.mp hn
  exact (List.Pairwise.and hs hne).imp
    (fun {a b} hab => Nat.lt_of_le_of_ne hab.1 hab.2)

/-! ### Substring analysis for the marker pattern -/

theorem takeWhile_append_all {p : Char → Bool} {xs ys : List Char}
    (h : ∀ a ∈ xs, p a = true) :
    (xs ++ ys).takeWhile p = xs ++ ys.takeWhile p := by
  induction xs with
  | nil => rfl
  | cons c cs ih =>
    rw [List.cons_append, List.takeWhile_cons,
      if_pos (h c (List.mem_cons_self c cs)), List.cons_append,
      ih (fun a ha => h a (List.mem_cons_of_mem _ ha))]

theorem marker_count_colon {l : List Char} (h : isTimestampLine l = true) :
    l.count ':' = 2 := by
  obtain ⟨d1, d2, d3, d4, d5, d6, ws, rfl, h1, h2, h3, h4, h5, h6, hws⟩ :=
    (isTimestampLine_iff l).mp h
  have hws' : List.count ':' ws = 0 := by
    rw [List.count_eq_zero]
    intro hm
    rw [List.all_eq_true] at hws
    exact absurd (hws _ hm) (by decide)
  simp [List.count_cons, hws', Ne.symm (isDigit_ne_colon h1),
    Ne.symm (isDigit_ne_colon h2), Ne.symm (isDigit_ne_colon h3),
    Ne.symm (isDigit_ne_colon h4), Ne.symm (isDigit_ne_colon h5),
    Ne.symm (isDigit_ne_colon h6)]

theorem marker_takeWhile {l : List Char} (h : isTimestampLine l = true) :
    (l.takeWhile (fun c => !(c == ':'))).length = 2 := by
  obtain ⟨d1, d2, d3, d4, d5, d6, ws, rfl, h1, h2, h3, h4, h5, h6, hws⟩ :=
    (isTimestampLine_iff l).mp h
  have e1 : (d1 == ':') = false := by
    simpa using isDigit_ne_colon h1
  have e2 : (d2 == ':') = false := by
    simpa using isDigit_ne_colon h2
  simp [List.takeWhile_cons, e1, e2]

theorem marker_substring {pre post : List Char} {d1 d2 d3 d4 d5 d6 : Char}
    (h1 : d1.isDigit = true) (h2 : d2.isDigit = true)
    (h3 : d3.isDigit = true) (h4 : d4.isDigit = true)
    (h5 : d5.isDigit = true) (h6 : d6.isDigit = true)
    (hm : isTimestampLine
      (pre ++ (d1 :: d2 :: ':' :: d3 :: d4 :: ':' :: d5 :: [d6]) ++ post) =
        true) :
    pre = [] ∧ post.all isJsSpace = true := by
  have hts : (d1 :: d2 :: ':' :: d3 :: d4 :: ':' :: d5 :: [d6]).count ':' = 2 := by
    simp [List.count_cons, Ne.symm (isDigit_ne_colon h1),
      Ne.symm (isDigit_ne_colon h2), Ne.symm (isDigit_ne_colon h3),
      Ne.symm (isDigit_ne_colon h4), Ne.symm (isDigit_ne_colon h5),
      Ne.symm (isDigit_ne_colon h6)]
  have hc := marker_count_colon hm
  rw [List.count_append, List.count_append, hts] at hc
  have hpre : ':' ∉ pre := List.count_eq_zero.mp (by omega)
  have he1 : (d1 == ':') = false := by simpa using isDigit_ne_colon h1
  have he2 : (d2 == ':') = false := by simpa using isDigit_ne_colon h2
  have htw := marker_takeWhile hm
  have htval : ((pre ++ (d1 :: d2 :: ':' :: d3 :: d4 :: ':' :: d5 :: [d6]) ++
      post).takeWhile (fun c => !(c == ':'))) = pre ++ [d1, d2] := by
    rw [List.append_assoc,
      takeWhile_append_all (p := fun c => !(c == ':')) (by
        intro a ha
        have hne : a ≠ ':' := fun e => hpre (e ▸ ha)
        simp [hne])]
    simp [List.takeWhile_cons, he1, he2]
  rw [htval] at htw
  simp only [List.length_append, List.length_cons, List.length_nil] at htw
  have hprenil : pre = [] := List.length_eq_zero.mp (by omega)
  subst hprenil
  refine ⟨rfl, ?_⟩
  obtain ⟨e1, e2, e3, e4, e5, e6, ws, heq, _, _, _, _, _, _, hws⟩ :=
    (isTimestampLine_iff _).mp hm
  simp only [List.nil_append, List.cons_append, List.singleton_append,
    List.cons.injEq] at heq
  obtain ⟨_, _, _, _, _, _, _, _, hpost⟩ := heq
  rw [hpost]
  exact hws

/-- C2: a line is a timestamp marker iff it consists of exactly two digits,
colon, two digits, colon, two digits, optionally followed by trailing
whitespace and nothing else; a line that merely contains such a timestamp as
a substring, with other text before or after it, is never a marker. -/
theorem C2_marker_iff_exact :
    (∀ l, isTimestampLine l = true ↔ specTimestampMarker l) ∧
    (∀ pre post d1 d2 d3 d4 d5 d6,
      d1.isDigit = true → d2.isDigit = true → d3.isDigit = true →
      d4.isDigit = true → d5.isDigit = true → d6.isDigit = true →
      (pre ≠ [] ∨ post.all isJsSpace = false) →
      isTimestampLine
        (pre ++ (d1 :: d2 :: ':' :: d3 :: d4 :: ':' :: d5 :: [d6]) ++ post) =
          false) ∧
    isTimestampLine (chars "see 00:01:00") = false ∧
    isTimestampLine (chars "00:01:00 ok") = false ∧
    isTimestampLine (chars "00:01:00  ") = true := by
  refine ⟨isTimestampLine_iff, ?_, by decide, by decide, by decide⟩
  intro pre post d1 d2 d3 d4 d5 d6 h1 h2 h3 h4 h5 h6 hcond
  cases hm : isTimestampLine
      (pre ++ (d1 :: d2 :: ':' :: d3 :: d4 :: ':' :: d5 :: [d6]) ++ post) with
  | false => rfl
  | true =>
    exfalso
    obtain ⟨hpre, hpost⟩ := marker_substring h1 h2 h3 h4 h5 h6 hm
    rcases hcond with hc | hc
    · exact hc hpre
    · rw [hpost] at hc
      cases hc

/-- Witness for C2: `"x00:01:00"` contains the timestamp `00:01:00` as a
substring with text before it, and is not a marker. -/
theorem C2_marker_iff_exact_witness :
    isTimestampLine
      (['x'] ++ ('0' :: '0' :: ':' :: '0' :: '1' :: ':' :: '0' :: ['0']) ++ []) =
        false :=
  C2_marker_iff_exact.2.1 ['x'] [] '0' '0' '0' '1' '0' '0'
    (by decide) (by decide) (by decide) (by decide) (by decide) (by decide)
    (Or.inl (by decide))

/-- C4: for every input in which no normalized line matches the strict
HH:MM:SS marker pattern, the routine returns the empty sequence (and, being
total, raises no error); in particular "just some text" yields []. -/
theorem C4_no_marker_empty :
    (∀ (raw : List Char) (wm : Nat),
      (∀ l ∈ normalizeLines raw, isTimestampLine l = false) →
      splitTranscriptIntoWindows raw wm = []) ∧
    splitTranscriptIntoWindows (chars "just some text") 20 = [] := by
  refine ⟨?_, by decide⟩
  intro raw wm h
  simp only [splitTranscriptIntoWindows]
  rw [findFirstIdx_eq_none_iff.mpr h]

/-- Witness for C4: a concrete marker-free input. -/
theorem C4_no_marker_empty_witness :
    splitTranscriptIntoWindows (chars "hello world") 20 = [] :=
  C4_no_marker_empty.1 (chars "hello world") 20 (by decide)

/-- C5: inside one bucket, blank-line runs collapse to a single blank
separator line, non-blank lines pass through unchanged and in order, the
result is newline-joined and trimmed; three consecutive blank lines become
exactly one blank line. -/
theorem C5_blank_collapsing :
    (∀ ls : List (List Char),
      (collapseBlanks ls false).filter (fun l => !isBlankLine l) =
        ls.filter (fun l => !isBlankLine l) ∧
      List.Chain' (fun a c => isBlankLine a = false ∨ isBlankLine c = false)
        (collapseBlanks ls false) ∧
      (∀ l ∈ collapseBlanks ls false, isBlankLine l = true → l = []) ∧
      cleanBucket ls = jsTrim (joinLines (collapseBlanks ls false))) ∧
    collapseBlanks [chars "a", [], [], [], chars "b"] false =
      [chars "a", [], chars "b"] ∧
    cleanBucket [chars "a", [], [], [], chars "b"] = chars "a\n\nb" := by
  refine ⟨?_, by decide, by decide⟩
  intro ls
  exact ⟨collapseBlanks_filter ls false, collapseBlanks_chain ls false,
    collapseBlanks_blank_eq_nil ls false, rfl⟩

/-- Witness for C5: the collapsed blank line of a concrete bucket is the
empty line. -/
theorem C5_blank_collapsing_witness : ([] : List Char) = [] :=
  (C5_blank_collapsing.1 [chars "a", [], [], [], chars "b"]).2.2.1 []
    (by decide) (by decide)

/-- C6: every returned window has non-empty cleaned text; a bucket holding
only timestamp markers and/or blank lines produces no window, so
`00:05:00` immediately followed by `00:25:00` yields no window at all. -/
theorem C6_nonempty_text :
    (∀ (raw : List Char) (wm : Nat) (w : Window),
      w ∈ splitTranscriptIntoWindows raw wm → w.text ≠ []) ∧
    splitTranscriptIntoWindows (chars "00:05:00\n00:25:00") 20 = [] := by
  refine ⟨?_, by decide⟩
  intro raw wm w hw
  simp only [splitTranscriptIntoWindows] at hw
  rcases hfin : findFirstIdx isTimestampLine (normalizeLines raw) with _ | i
  · rw [hfin] at hw
    simp at hw
  · rw [hfin] at hw
    obtain ⟨k, ls, _, hne, rfl⟩ := mem_windowsFromRelevant hw
    simpa [mkWindow] using hne

/-- Witness for C6: the single window of a concrete transcript has non-empty
text. -/
theorem C6_nonempty_text_witness :
    (⟨0, chars "00:00:00", chars "00:19:59", chars "Hello"⟩ : Window).text ≠ [] :=
  C6_nonempty_text.1 (chars "Title\n00:00:00\nHello\n") 20 _ (by decide)

/-- C1: a timestamp-marker line with digit components sets the current
window index to `floor((H*3600 + M*60 + S) / (windowMinutes*60))` and adds
no content; a non-marker line is appended to the bucket of the current
window index; a timestamp exactly on a bucket boundary (`00:20:00`, window
20 minutes) selects the next bucket, index 1. -/
theorem C1_marker_sets_index (wm : Nat) (st : ParseState) (_hwm : 0 < wm) :
    (∀ (d1 d2 d3 d4 d5 d6 : Char) (ws l : List Char),
      l = d1 :: d2 :: ':' :: d3 :: d4 :: ':' :: d5 :: d6 :: ws →
      d1.isDigit = true → d2.isDigit = true → d3.isDigit = true →
      d4.isDigit = true → d5.isDigit = true → d6.isDigit = true →
      ws.all isJsSpace = true →
      step (wm * 60) st l =
        { st with
          currentTimestamp :=
            (10 * digitVal d1 + digitVal d2) * 3600 +
            (10 * digitVal d3 + digitVal d4) * 60 +
            (10 * digitVal d5 + digitVal d6),
          currentWindowIndex :=
            ((10 * digitVal d1 + digitVal d2) * 3600 +
             (10 * digitVal d3 + digitVal d4) * 60 +
             (10 * digitVal d5 + digitVal d6)) / (wm * 60) }) ∧
    (∀ l, isTimestampLine l = false →
      step (wm * 60) st l =
        { st with contents := pushLine st.contents st.currentWindowIndex l }) ∧
    (step (20 * 60) st (chars "00:20:00")).currentWindowIndex = 1 := by
  refine ⟨?_, ?_, ?_⟩
  · rintro d1 d2 d3 d4 d5 d6 ws l rfl h1 h2 h3 h4 h5 h6 hws
    have hm : isTimestampLine
        (d1 :: d2 :: ':' :: d3 :: d4 :: ':' :: d5 :: d6 :: ws) = true :=
      (isTimestampLine_iff _).mpr
        ⟨d1, d2, d3, d4, d5, d6, ws, rfl, h1, h2, h3, h4, h5, h6, hws⟩
    unfold step
    rw [if_pos hm, jsTrim_marker h1 h6 hws,
      hhmmssToSeconds_core h1 h2 h3 h4 h5 h6]
    rfl
  · intro l hl
    unfold step
    rw [if_neg (by simp [hl])]
  · have hm : isTimestampLine (chars "00:20:00") = true := by decide
    unfold step
    rw [if_pos hm]
    have e : (hhmmssToSeconds (jsTrim (chars "00:20:00"))).getD 0 / (20 * 60) =
        1 := by decide
    simpa using e

/-- Witness for C1: the boundary marker `00:20:00` applied to the initial
state. -/
theorem C1_marker_sets_index_witness :
    step (20 * 60) ⟨0, 0, []⟩ (chars "00:20:00") =
      ⟨((10 * digitVal '0' + digitVal '0') * 3600 +
        (10 * digitVal '2' + digitVal '0') * 60 +
        (10 * digitVal '0' + digitVal '0')) / (20 * 60),
       (10 * digitVal '0' + digitVal '0') * 3600 +
        (10 * digitVal '2' + digitVal '0') * 60 +
        (10 * digitVal '0' + digitVal '0'), []⟩ :=
  (C1_marker_sets_index 20 ⟨0, 0, []⟩ (by decide)).1 '0' '0' '2' '0' '0' '0'
    [] (chars "00:20:00") (by decide) (by decide) (by decide) (by decide)
    (by decide) (by decide) (by decide) (by decide)

/-- C9: out-of-clock-range components are not validated: any marker line
with digit components H, M, S converts to `H*3600 + M*60 + S` seconds (the
conversion returns a value, never an error), and the bucket index is that
count divided by the window duration; `99:99:99` gives 362439 seconds and,
for a 20-minute window, bucket 302. -/
theorem C9_no_range_validation (wm : Nat) (st : ParseState) (_hwm : 0 < wm) :
    (∀ (d1 d2 d3 d4 d5 d6 : Char) (ws l : List Char),
      l = d1 :: d2 :: ':' :: d3 :: d4 :: ':' :: d5 :: d6 :: ws →
      d1.isDigit = true → d2.isDigit = true → d3.isDigit = true →
      d4.isDigit = true → d5.isDigit = true → d6.isDigit = true →
      ws.all isJsSpace = true →
      hhmmssToSeconds (jsTrim l) =
        some ((10 * digitVal d1 + digitVal d2) * 3600 +
          (10 * digitVal d3 + digitVal d4) * 60 +
          (10 * digitVal d5 + digitVal d6)) ∧
      (step (wm * 60) st l).currentWindowIndex =
        ((10 * digitVal d1 + digitVal d2) * 3600 +
         (10 * digitVal d3 + digitVal d4) * 60 +
         (10 * digitVal d5 + digitVal d6)) / (wm * 60)) ∧
    hhmmssToSeconds (chars "99:99:99") = some 362439 ∧
    (step (20 * 60) st (chars "99:99:99")).currentWindowIndex = 302 := by
  refine ⟨?_, by decide, ?_⟩
  · rintro d1 d2 d3 d4 d5 d6 ws l rfl h1 h2 h3 h4 h5 h6 hws
    have hm : isTimestampLine
        (d1 :: d2 :: ':' :: d3 :: d4 :: ':' :: d5 :: d6 :: ws) = true :=
      (isTimestampLine_iff _).mpr
        ⟨d1, d2, d3, d4, d5, d6, ws, rfl, h1, h2, h3, h4, h5, h6, hws⟩
    have hsec : hhmmssToSeconds
        (jsTrim (d1 :: d2 :: ':' :: d3 :: d4 :: ':' :: d5 :: d6 :: ws)) =
        some ((10 * digitVal d1 + digitVal d2) * 3600 +
          (10 * digitVal d3 + digitVal d4) * 60 +
          (10 * digitVal d5 + digitVal d6)) := by
      rw [jsTrim_marker h1 h6 hws]
      exact hhmmssToSeconds_core h1 h2 h3 h4 h5 h6
    refine ⟨hsec, ?_⟩
    unfold step
    rw [if_pos hm, hsec]
    rfl
  · have hm : isTimestampLine (chars "99:99:99") = true := by decide
    unfold step
    rw [if_pos hm]
    have e : (hhmmssToSeconds (jsTrim (chars "99:99:99"))).getD 0 / (20 * 60) =
        302 := by decide
    simpa using e

/-- Witness for C9: the out-of-range marker `99:99:99`. -/
theorem C9_no_range_validation_witness :
    hhmmssToSeconds (jsTrim (chars "99:99:99")) =
      some ((10 * digitVal '9' + digitVal '9') * 3600 +
        (10 * digitVal '9' + digitVal '9') * 60 +
        (10 * digitVal '9' + digitVal '9')) :=
  (((C9_no_range_validation 20 ⟨0, 0, []⟩ (by decide)).1 '9' '9' '9' '9' '9'
    '9' [] (chars "99:99:99") (by decide) (by decide) (by decide) (by decide)
    (by decide) (by decide) (by decide) (by decide))).1

/-- C3: for every input and positive window duration, the returned windows
are strictly increasing in `index` (hence sorted with no duplicates). -/
theorem C3_sorted_distinct (raw : List Char) (wm : Nat) (_hwm : 0 < wm) :
    List.Pairwise (fun a b => a.index < b.index)
      (splitTranscriptIntoWindows raw wm) := by
  simp only [splitTranscriptIntoWindows]
  rcases hfin : findFirstIdx isTimestampLine (normalizeLines raw) with _ | i
  · simp
  · simp only [windowsFromRelevant]
    apply windows_pairwise_lt
    have hnodup : (((runLines (wm * 60)
        ((normalizeLines raw).drop i)).contents).map Prod.fst).Nodup := by
      unfold runLines
      exact foldl_step_nodup _ _ _ (by simp)
    have hperm := List.perm_insertionSort keyLE
      (runLines (wm * 60) ((normalizeLines raw).drop i)).contents
    have hnodup' : ((List.insertionSort keyLE (runLines (wm * 60)
        ((normalizeLines raw).drop i)).contents).map Prod.fst).Nodup :=
      ((hperm.map Prod.fst).nodup_iff).mpr hnodup
    exact (buildWindows_index_sublist _ _).nodup hnodup'

/-- Witness for C3: a concrete two-window transcript. -/
theorem C3_sorted_distinct_witness :
    List.Pairwise (fun a b => a.index < b.index)
      (splitTranscriptIntoWindows (chars "00:00:00\nA\n00:20:00\nB") 20) :=
  C3_sorted_distinct (chars "00:00:00\nA\n00:20:00\nB") 20 (by decide)

/-- C7: for every returned window, decoding `from` and `to` back to seconds
gives `to_seconds = from_seconds + windowMinutes*60 − 1`, equivalently
`to_seconds − from_seconds + 1 = windowMinutes*60`. -/
theorem C7_window_span (raw : List Char) (wm : Nat) (hwm : 0 < wm) :
    ∀ w ∈ splitTranscriptIntoWindows raw wm,
      ∃ fs ts, hhmmssToSeconds w.«from» = some fs ∧
        hhmmssToSeconds w.«to» = some ts ∧
        ts = fs + wm * 60 - 1 ∧ ts - fs + 1 = wm * 60 := by
  intro w hw
  simp only [splitTranscriptIntoWindows] at hw
  rcases hfin : findFirstIdx isTimestampLine (normalizeLines raw) with _ | i
  · rw [hfin] at hw
    simp at hw
  · rw [hfin] at hw
    obtain ⟨k, ls, _, _, rfl⟩ := mem_windowsFromRelevant hw
    refine ⟨k * (wm * 60), k * (wm * 60) + (wm * 60) - 1,
      hhmmssToSeconds_secondsToHHMMSS _, hhmmssToSeconds_secondsToHHMMSS _,
      rfl, ?_⟩
    have hd : 0 < wm * 60 := by omega
    have hfs : 0 ≤ k * (wm * 60) := Nat.zero_le _
    set fs := k * (wm * 60)
    omega

/-- Witness for C7: the single window of a concrete transcript. -/
theorem C7_window_span_witness :
    ∃ fs ts,
      hhmmssToSeconds
        (⟨0, chars "00:00:00", chars "00:19:59", chars "Hello"⟩ : Window).«from» =
          some fs ∧
      hhmmssToSeconds
        (⟨0, chars "00:00:00", chars "00:19:59", chars "Hello"⟩ : Window).«to» =
          some ts ∧
      ts = fs + 20 * 60 - 1 ∧ ts - fs + 1 = 20 * 60 :=
  C7_window_span (chars "Title\n00:00:00\nHello\n") 20 (by decide) _ (by decide)

/-- Counterexample to C8 as stated: with marker `99:99:99` (unvalidated, so
accepted) and a 20-minute window, the returned window's `from` field is
`"100:40:00"`, whose hours field has three digits — not a two-digit-fields
HH:MM:SS clock representation. -/
theorem C8_counterexample :
    (splitTranscriptIntoWindows (chars "99:99:99\nx") 20).map
        (fun w => w.«from») = [chars "100:40:00"] ∧
    isTwoDigitClock (chars "100:40:00") = false := by decide

/-- C8 (amended): for every returned window, `from` and `to` are the clock
strings of `index*windowMinutes*60` and of the bucket's inclusive end minus
one second, derived purely from `index` and the window duration; each is
three colon-separated digit fields with two-digit minutes and seconds and
hours zero-padded to at least two digits (exactly two only while the hour
count fits in two digits). -/
theorem C8_from_to_derived (raw : List Char) (wm : Nat) (_hwm : 0 < wm) :
    ∀ w ∈ splitTranscriptIntoWindows raw wm,
      w.«from» = secondsToHHMMSS (w.index * (wm * 60)) ∧
      w.«to» = secondsToHHMMSS (w.index * (wm * 60) + (wm * 60) - 1) ∧
      clockFields w.«from» ∧ clockFields w.«to» := by
  intro w hw
  simp only [splitTranscriptIntoWindows] at hw
  rcases hfin : findFirstIdx isTimestampLine (normalizeLines raw) with _ | i
  · rw [hfin] at hw
    simp at hw
  · rw [hfin] at hw
    obtain ⟨k, ls, _, _, rfl⟩ := mem_windowsFromRelevant hw
    exact ⟨rfl, rfl, secondsToHHMMSS_clockFields _,
      secondsToHHMMSS_clockFields _⟩

/-- Witness for the amended C8: the single window of a concrete
transcript. -/
theorem C8_from_to_derived_witness :
    (⟨0, chars "00:00:00", chars "00:19:59", chars "Hello"⟩ : Window).«from» =
      secondsToHHMMSS
        ((⟨0, chars "00:00:00", chars "00:19:59", chars "Hello"⟩ : Window).index *
          (20 * 60)) ∧
    (⟨0, chars "00:00:00", chars "00:19:59", chars "Hello"⟩ : Window).«to» =
      secondsToHHMMSS
        ((⟨0, chars "00:00:00", chars "00:19:59", chars "Hello"⟩ : Window).index *
          (20 * 60) + (20 * 60) - 1) ∧
    clockFields
      (⟨0, chars "00:00:00", chars "00:19:59", chars "Hello"⟩ : Window).«from» ∧
    clockFields
      (⟨0, chars "00:00:00", chars "00:19:59", chars "Hello"⟩ : Window).«to» :=
  C8_from_to_derived (chars "Title\n00:00:00\nHello\n") 20 (by decide) _
    (by decide)

/-- C10: every returned window's index is `floor(seconds(m) / (wm*60))` for
some actual timestamp-marker line `m` of the input located at or after the
first marker; no window has an index no marker maps to. -/
theorem C10_index_provenance (raw : List Char) (wm : Nat) (_hwm : 0 < wm) :
    ∀ w ∈ splitTranscriptIntoWindows raw wm,
      ∃ i, findFirstIdx isTimestampLine (normalizeLines raw) = some i ∧
        ∃ m ∈ (normalizeLines raw).drop i, isTimestampLine m = true ∧
          ∃ n, hhmmssToSeconds (jsTrim m) = some n ∧
            w.index = n / (wm * 60) := by
  intro w hw
  simp only [splitTranscriptIntoWindows] at hw
  rcases hfin : findFirstIdx isTimestampLine (normalizeLines raw) with _ | i
  · rw [hfin] at hw
    simp at hw
  · rw [hfin] at hw
    refine ⟨i, rfl, ?_⟩
    obtain ⟨k, ls, hk, _, rfl⟩ := mem_windowsFromRelevant hw
    have hkey : k ∈ ((runLines (wm * 60)
        ((normalizeLines raw).drop i)).contents).map Prod.fst :=
      List.mem_map_of_mem Prod.fst hk
    obtain ⟨hd, tl, hdrop, hmark⟩ := findFirstIdx_drop hfin
    rw [hdrop] at hkey
    simp only [runLines, List.foldl_cons] at hkey
    have hinv := foldl_step_keys_inv (wm * 60)
      (fun x => ∃ m ∈ (normalizeLines raw).drop i,
        isTimestampLine m = true ∧
        x = (hhmmssToSeconds (jsTrim m)).getD 0 / (wm * 60))
      tl (step (wm * 60) ⟨0, 0, []⟩ hd)
      (fun l hl hlt => ⟨l, by
          rw [hdrop]
          exact List.mem_cons_of_mem _ hl, hlt, rfl⟩)
      (by
        refine ⟨hd, by rw [hdrop]; exact List.mem_cons_self _ _, hmark, ?_⟩
        simp [step, hmark])
      (by
        intro x hx
        have e : (step (wm * 60) (⟨0, 0, []⟩ : ParseState) hd).contents =
            ([] : List (Nat × List (List Char))) := by
          simp [step, hmark]
        rw [e] at hx
        simp at hx)
    obtain ⟨m, hm, hmark', heq⟩ := hinv.2 k hkey
    obtain ⟨d1, d2, d3, d4, d5, d6, ws, _, _, _, _, _, _, _, _, hsec⟩ :=
      hhmmssToSeconds_marker hmark'
    refine ⟨m, hm, hmark',
      (10 * digitVal d1 + digitVal d2) * 3600 +
        (10 * digitVal d3 + digitVal d4) * 60 +
        (10 * digitVal d5 + digitVal d6), hsec, ?_⟩
    show k = _
    rw [heq, hsec]
    rfl

/-- Witness for C10: the single window of a concrete transcript. -/
theorem C10_index_provenance_witness :
    ∃ i, findFirstIdx isTimestampLine
        (normalizeLines (chars "Title\n00:00:00\nHello\n")) = some i ∧
      ∃ m ∈ (normalizeLines (chars "Title\n00:00:00\nHello\n")).drop i,
        isTimestampLine m = true ∧
        ∃ n, hhmmssToSeconds (jsTrim m) = some n ∧
          (⟨0, chars "00:00:00", chars "00:19:59", chars "Hello"⟩ :
            Window).index = n / (20 * 60) :=
  C10_index_provenance (chars "Title\n00:00:00\nHello\n") 20 (by decide) _
    (by decide)
